import Mathlib

/-!
Verification development for klauer/PVRename (`pvrename.py`).

The file embeds, as executable Lean definitions, the parts of the program
the claims are about:

* the Python string primitives the program relies on (`str.strip`,
  `str.replace`, the `in` substring test),
* the camel-case state machine `to_camel` and the unimplemented `to_caps`,
* the two-column table parser `read_conv_file`,
* the per-file replacement loop and batch loop of `rename`,
* the ignore-list construction and traversal of `find_files` together
  with `load_ignore_file`.

External effects (the filesystem walked by `os.walk`, the diff subprocess)
are modelled as explicit parameters; the regular-expression engine behind
`re.search` is an abstract matcher parameter, since no claim depends on
regex semantics beyond "some pattern matches / no pattern matches".
-/

deriving instance DecidableEq for Except

namespace PVRename

/-! ### Python string primitives -/

/-- Characters `str.strip` removes (Python whitespace). -/
def pyIsSpace (c : Char) : Bool :=
  c == ' ' || c == '\t' || c == '\n' || c == '\r' || c == '\x0b' || c == '\x0c'

/-- Python `str.strip()` on a character list. -/
def pyStrip (l : List Char) : List Char :=
  ((l.dropWhile pyIsSpace).reverse.dropWhile pyIsSpace).reverse

/-- Fuel-indexed core of Python `str.replace`: replaces every
left-to-right non-overlapping occurrence of `pat` by `rep`.  The empty
pattern inserts `rep` before every character and at the end, exactly as
CPython does.  Fuel `s.length + 1` always suffices. -/
def pyReplaceAux (pat rep : List Char) : Nat → List Char → List Char
  | 0, s => s
  | _ + 1, [] => if pat.isEmpty then rep else []
  | fuel + 1, c :: cs =>
    if pat.isEmpty then
      rep ++ c :: pyReplaceAux pat rep fuel cs
    else if pat.isPrefixOf (c :: cs) then
      rep ++ pyReplaceAux pat rep fuel ((c :: cs).drop pat.length)
    else
      c :: pyReplaceAux pat rep fuel cs

/-- Python `s.replace(pat, rep)` on character lists. -/
def pyReplace (pat rep s : List Char) : List Char :=
  pyReplaceAux pat rep (s.length + 1) s

/-- Python `text.replace(pat, rep)` on strings. -/
def strReplace (s pat rep : String) : String :=
  ⟨pyReplace pat.data rep.data s.data⟩

/-- Python `pat in s` substring test. -/
def containsSub (pat : List Char) : List Char → Bool
  | [] => pat.isEmpty
  | c :: cs => pat.isPrefixOf (c :: cs) || containsSub pat cs

/-! ### CaseConverter: `to_camel` and `to_caps` (src/pvrename.py lines 117-155) -/

/-- Module-level constant `DEF_CAPS_DELIM = ':)'`, as a character set. -/
def DEF_CAPS_DELIM : List Char := [':', ')']

/-- Module-level constant `DEF_DELIM = '_'`, as a character set; this is
also the default `delims = ['_']` installed by `convert_case` when no
delimiter is supplied. -/
def DEF_DELIM : List Char := ['_']

/-- The per-character state of `to_camel`: the two booleans and the
accumulated output list `ret`. -/
structure CState where
  in_macro : Bool
  last_delim : Bool
  ret : List Char
deriving DecidableEq

/-- One iteration of the `for c in s` loop body of `to_camel`. -/
def toCamelStep (delims caps_delim : List Char) (st : CState) (c : Char) : CState :=
  match st with
  | ⟨im, ld, ret⟩ =>
    if im then
      if c = ')' then
        ⟨false, if caps_delim.contains c then true else ld, ret ++ [c]⟩
      else
        ⟨im, ld, ret ++ [c]⟩
    else if c = '$' then
      ⟨true, ld, ret ++ [c]⟩
    else if delims.contains c then
      ⟨im, true, ret⟩
    else if caps_delim.contains c then
      ⟨im, true, ret ++ [c]⟩
    else if ld then
      ⟨im, false, ret ++ [c.toUpper]⟩
    else
      ⟨im, ld, ret ++ [c.toLower]⟩

/-- `to_camel(s)` as defined inside `convert_case`: a single left-to-right
scan with `in_macro` and `last_delim` both initially false. -/
def to_camel (delims caps_delim : List Char) (s : String) : String :=
  ⟨(s.data.foldl (toCamelStep delims caps_delim) ⟨false, false, []⟩).ret⟩

/-- Error raised by the conversion layer. -/
inductive ConvErr where
  | notImplemented
deriving DecidableEq

/-- `to_caps(s)`: the body is `raise NotImplementedError`. -/
def to_caps (_s : String) : Except ConvErr String :=
  .error .notImplemented

/-! ### Table parser: `read_conv_file` (lines 172-186) -/

/-- One value yielded by the generator `read_conv_file`: the empty tuple
`()` for a blank line, or the pair `(from_, to)` otherwise. -/
inductive ConvLine where
  | blank
  | entry (from_ to_ : String)
deriving DecidableEq

/-- The effect of matching a stripped non-blank line against the regex
`^(.*)\s+(.*)$`: it matches exactly when the line contains a whitespace
character, and greediness of the first group puts everything before the
last whitespace character into group 1 and everything after it into
group 2. -/
def splitLastWS (l : List Char) : Option (List Char × List Char) :=
  let revTail := l.reverse.takeWhile (fun c => !(pyIsSpace c))
  if revTail.length = l.length then none
  else some (l.take (l.length - revTail.length - 1), revTail.reverse)

/-- `read_conv_file` over the list of lines of the table file. -/
def read_conv_file (lines : List String) : List ConvLine :=
  lines.map fun line =>
    let l := pyStrip line.data
    if l = [] then .blank
    else
      match splitLastWS l with
      | some (a, b) => .entry ⟨a⟩ ⟨b⟩
      | none => .entry ⟨l⟩ ⟨l⟩

/-! ### Rewriter: the `rename` pass (lines 189-221)

The per-file loop `for from_, to in replace: text = text.replace(from_, to)`
iterates over everything `read_conv_file` yielded, blank sentinels
included; unpacking the empty tuple `()` into `from_, to` raises a
`ValueError`, which nothing catches.  The diff subprocess in dry-run mode
is an external effect: `subprocess.call` returns the program's exit code
when the executable exists (any code, inspected by nobody) and raises
`OSError` when it does not, which again nothing catches. -/

/-- Uncaught exceptions that can escape the rename loop. -/
inductive RErr where
  | unpack
  | execMissing
deriving DecidableEq

/-- Outcome of one `subprocess.call([diff, fn, temp] + diff_args)`. -/
inductive DiffRes where
  | ran (code : Int)
  | missing
deriving DecidableEq

/-- The replacement loop of `rename` over the parsed table: each entry's
literal replacement is applied once, in list order; a blank sentinel
raises (unpacking `()` fails). -/
def applyReplace : List ConvLine → String → Except RErr String
  | [], text => .ok text
  | .blank :: _, _ => .error .unpack
  | .entry f t :: rest, text => applyReplace rest (strReplace text f t)

/-- Modelled from the spec: the replacement pass as §4.2 describes it,
with "blank-line sentinels dropped for this use" — each remaining entry
applied once, in list order.  Kept separate from `applyReplace` (the
code's loop) so the two can be compared. -/
def applyReplaceDropped (tbl : List ConvLine) (text : String) : String :=
  tbl.foldl
    (fun t cl =>
      match cl with
      | .blank => t
      | .entry f tt => strReplace t f tt)
    text

/-- What happened to one candidate file. -/
inductive FileOutcome where
  | skipped
  | unchanged
  | wouldChange (newText : String) (code : Int)
  | written (newText : String)
deriving DecidableEq

/-- The body of `for fn in fns` in `rename`, for one file with contents
`text` on disk.  `dres` is the outcome the diff subprocess would have for
this file; it is only consulted on the dry-run changed path, exactly where
the source calls `subprocess.call`. -/
def processFile (tbl : List ConvLine) (ren_fn : String) (dryrun : Bool)
    (dres : DiffRes) (fn text : String) : Except RErr FileOutcome :=
  if fn = ren_fn then .ok .skipped
  else
    match applyReplace tbl text with
    | .error e => .error e
    | .ok newText =>
      if newText ≠ text then
        if dryrun then
          match dres with
          | .missing => .error .execMissing
          | .ran c => .ok (.wouldChange newText c)
        else .ok (.written newText)
      else .ok .unchanged

/-- The whole `for fn in fns` loop: files are processed in order and an
uncaught exception aborts the batch, leaving the remaining files
unprocessed. -/
def renameBatch (tbl : List ConvLine) (ren_fn : String) (dryrun : Bool)
    (diffFor : String → DiffRes) :
    List (String × String) → Except RErr (List (String × String × FileOutcome))
  | [] => .ok []
  | (fn, text) :: rest =>
    match processFile tbl ren_fn dryrun (diffFor fn) fn text with
    | .error e => .error e
    | .ok o =>
      match renameBatch tbl ren_fn dryrun diffFor rest with
      | .error e => .error e
      | .ok l => .ok ((fn, text, o) :: l)

/-- Contents of the file on disk after its outcome: only the commit-mode
write path (`open(fn, 'wt').write(text)`) changes it. -/
def diskAfter (orig : String) : FileOutcome → String
  | .written t => t
  | _ => orig

/-- Whether the outcome wrote to the original file. -/
def didWrite : FileOutcome → Bool
  | .written _ => true
  | _ => false

/-- Whether the outcome printed the `[dry run] Would change:` notice. -/
def didReport : FileOutcome → Bool
  | .wouldChange _ _ => true
  | _ => false

/-! ### PathFilter: `load_ignore_file` / `find_files` (lines 53-93) -/

/-- Module-level constant `DEFAULT_EXT`. -/
def DEFAULT_EXT : List String :=
  [".db", ".opi", ".edl", ".adl", ".cmd", ".template",
   ".proto", ".protocol", ".sub", ".substitutions"]

/-- The default value of the `ignore_paths` keyword argument of
`find_files` — a module-level mutable list object in Python. -/
def DEFAULT_IGNORE : List String :=
  ["/\\.git/", "/\\.svn/", "\\/O\\..*\\/", "\\.sw[op]$", "\\/db\\/"]

/-- `load_ignore_file` over the list of lines of the ignore file: strip
each line, skip blank lines and `#` comments, escape dots, turn `*` into
`.*` (the two `str.replace` calls of the source, in order) and anchor
with `$`. -/
def load_ignore_file (lines : List String) : List String :=
  lines.filterMap fun line =>
    let l := pyStrip line.data
    if l = [] ∨ l.head? = some '#' then none
    else some ⟨pyReplace ['*'] ['.', '*'] (pyReplace ['.'] ['\\', '.'] l) ++ ['$']⟩

/-- `os.path.join(root, fn)` for a relative file name under a directory
path (the only shape `os.walk` produces). -/
def pathJoin (dir fn : String) : String := dir ++ "/" ++ fn

/-- What `os.walk` yields at an existing directory root: one
`(dirpath, filenames)` pair per directory, each directory visited once.
Directory-name lists are irrelevant to `find_files` and omitted. -/
abbrev WalkOut := List (String × List String)

/-- Modelled from the Python standard library: `os.walk(path)` with its
default `onerror=None` swallows the `OSError` from `scandir` when `path`
is missing or not a directory, yielding nothing at all; `tree = none`
stands for that case, `tree = some w` for an existing directory whose
walk yields `w`. -/
def osWalk (tree : Option WalkOut) : WalkOut :=
  tree.getD []

/-- All regular-file paths the walk reaches, joined as `find_files` joins
them. -/
def allFiles (w : WalkOut) : List String :=
  w.flatMap fun e => e.2.map (pathJoin e.1)

/-- `find_files`.  `ignore_paths` is the list object the default argument
currently holds (Python evaluates the default once and mutates it in
place with `extend`); `gitignore = some lines` models
`os.path.exists(path/.gitignore)` being true with those contents;
`matcher pat s` models `re.compile(pat).search(s) is not None`.  The
result pairs the post-`extend` state of the `ignore_paths` list object
with the yielded file paths.  `extensions` is accepted and never used,
exactly as in the source. -/
def find_files (ignore_paths : List String) (matcher : String → String → Bool)
    (gitignore : Option (List String)) (extensions : List String)
    (tree : Option WalkOut) : List String × List String :=
  let ignore' :=
    match gitignore with
    | some lines => ignore_paths ++ load_ignore_file lines
    | none => ignore_paths
  let _ := extensions
  (ignore',
   (osWalk tree).flatMap fun e =>
     e.2.filterMap fun fn =>
       let full := pathJoin e.1 fn
       if ignore'.any (fun pat => matcher pat full) then none else some full)

/-! ### Helper lemmas -/

/-- If `pat` does not occur in `s`, the replacement scan leaves `s`
unchanged, whatever the fuel. -/
theorem pyReplaceAux_id (pat rep : List Char) :
    ∀ (fuel : Nat) (s : List Char), containsSub pat s = false →
      pyReplaceAux pat rep fuel s = s := by
  intro fuel
  induction fuel with
  | zero => intro s _; rfl
  | succ n ih =>
    intro s h
    cases s with
    | nil =>
      simp only [containsSub] at h
      simp [pyReplaceAux, h]
    | cons c cs =>
      simp only [containsSub, Bool.or_eq_false_iff] at h
      obtain ⟨h1, h2⟩ := h
      have hne : pat.isEmpty = false := by
        cases pat with
        | nil => simp [List.isPrefixOf] at h1
        | cons p ps => rfl
      simp [pyReplaceAux, hne, h1, ih cs h2]

/-- `text.replace(pat, rep)` is the identity when `pat` does not occur in
`text`. -/
theorem strReplace_id (s pat rep : String)
    (h : containsSub pat.data s.data = false) : strReplace s pat rep = s := by
  unfold strReplace pyReplace
  rw [pyReplaceAux_id pat.data rep.data _ s.data h]

/-- On a table without blank sentinels, the rename loop succeeds and
computes the in-order fold of the literal replacements. -/
theorem applyReplace_of_no_blank :
    ∀ (tbl : List ConvLine) (text : String), ConvLine.blank ∉ tbl →
      applyReplace tbl text = .ok (applyReplaceDropped tbl text) := by
  intro tbl
  induction tbl with
  | nil => intro text _; rfl
  | cons cl rest ih =>
    intro text h
    cases cl with
    | blank => exact absurd (List.mem_cons_self _ _) h
    | entry f t =>
      have h' : ConvLine.blank ∉ rest := fun hm => h (List.mem_cons_of_mem _ hm)
      show applyReplace rest (strReplace text f t) =
        .ok (applyReplaceDropped rest (strReplace text f t))
      exact ih _ h'

/-- A blank sentinel anywhere in the table makes the rename loop raise. -/
theorem applyReplace_of_blank :
    ∀ (tbl : List ConvLine) (text : String), ConvLine.blank ∈ tbl →
      applyReplace tbl text = .error .unpack := by
  intro tbl
  induction tbl with
  | nil => intro text h; cases h
  | cons cl rest ih =>
    intro text h
    cases cl with
    | blank => rfl
    | entry f t =>
      have h' : ConvLine.blank ∈ rest := by
        rcases List.mem_cons.mp h with hh | hh
        · cases hh
        · exact hh
      exact ih _ h'

/-- A table of plain entries none of whose `from` strings occur in `t`
leaves `t` unchanged. -/
theorem applyReplace_entries_id :
    ∀ (tbl : List (String × String)) (t : String),
      (∀ p ∈ tbl, containsSub p.1.data t.data = false) →
      applyReplace (tbl.map fun p => ConvLine.entry p.1 p.2) t = .ok t := by
  intro tbl
  induction tbl with
  | nil => intro t _; rfl
  | cons p rest ih =>
    intro t h
    show applyReplace (rest.map fun q => ConvLine.entry q.1 q.2)
      (strReplace t p.1 p.2) = .ok t
    rw [strReplace_id t p.1 p.2 (h p (List.mem_cons_self _ _))]
    exact ih t fun q hq => h q (List.mem_cons_of_mem _ hq)

/-- `processFile` on a blank-free table with an existing diff executable:
the four-way case split of the loop body. -/
theorem processFile_ran (tbl : List ConvLine) (ren_fn : String) (dryrun : Bool)
    (c : Int) (fn text : String) (hnb : ConvLine.blank ∉ tbl) :
    processFile tbl ren_fn dryrun (.ran c) fn text =
      .ok (if fn = ren_fn then .skipped
           else if applyReplaceDropped tbl text ≠ text then
             (if dryrun then .wouldChange (applyReplaceDropped tbl text) c
              else .written (applyReplaceDropped tbl text))
           else .unchanged) := by
  unfold processFile
  rw [applyReplace_of_no_blank tbl text hnb]
  by_cases h1 : fn = ren_fn
  · simp [h1]
  · by_cases h2 : applyReplaceDropped tbl text ≠ text
    · cases dryrun <;> simp [h1, h2]
    · simp [h1, h2]

/-- When no pattern matches any joined path of one directory, the
filtering of its file list degenerates to joining every name. -/
theorem filterMap_all_unmatched (pats : List String) (m : String → String → Bool)
    (r : String) (fs : List String)
    (h : ∀ fn ∈ fs, pats.any (fun pat => m pat (pathJoin r fn)) = false) :
    (fs.filterMap fun fn =>
      if pats.any (fun pat => m pat (pathJoin r fn)) then none
      else some (pathJoin r fn)) = fs.map (pathJoin r) := by
  induction fs with
  | nil => rfl
  | cons a l ih =>
    have ha := h a (List.mem_cons_self _ _)
    simp only [List.filterMap_cons, ha, List.map_cons, Bool.false_eq_true, if_false]
    rw [ih fun fn hfn => h fn (List.mem_cons_of_mem _ hfn)]

/-- When no pattern matches any file the walk reaches, the whole
traversal yields exactly the joined path of every file. -/
theorem walk_filter_all (pats : List String) (m : String → String → Bool)
    (w : WalkOut) (h : ∀ f ∈ allFiles w, pats.any (fun pat => m pat f) = false) :
    (w.flatMap fun e =>
      e.2.filterMap fun fn =>
        if pats.any (fun pat => m pat (pathJoin e.1 fn)) then none
        else some (pathJoin e.1 fn)) = allFiles w := by
  induction w with
  | nil => rfl
  | cons e rest ih =>
    have hfst : ∀ fn ∈ e.2, pats.any (fun pat => m pat (pathJoin e.1 fn)) = false := by
      intro fn hfn
      refine h _ ?_
      unfold allFiles
      exact List.mem_flatMap.mpr ⟨e, List.mem_cons_self _ _, List.mem_map_of_mem _ hfn⟩
    have hrest : ∀ f ∈ allFiles rest, pats.any (fun pat => m pat f) = false := by
      intro f hf
      refine h f ?_
      unfold allFiles at hf ⊢
      rcases List.mem_flatMap.mp hf with ⟨d, hd, hfd⟩
      exact List.mem_flatMap.mpr ⟨d, List.mem_cons_of_mem _ hd, hfd⟩
    simp only [List.flatMap_cons]
    rw [filterMap_all_unmatched pats m e.1 e.2 hfst, ih hrest]
    rfl

/-- The side condition of the idempotence claim, literally: no entry's
`to` string contains a strictly later entry's `from` string as a
substring. -/
def laterFromNotInTo (tbl : List (String × String)) : Prop :=
  ∀ i j : Fin tbl.length, (i : Nat) < (j : Nat) →
    containsSub (tbl.get j).1.data (tbl.get i).2.data = false

instance (tbl : List (String × String)) : Decidable (laterFromNotInTo tbl) := by
  unfold laterFromNotInTo
  infer_instance

/-! ### Claims -/

/-- Claim C1: the spec (and the module docstring's own example
`CAP_MEAS_INPUT <-> CapMeasInput`) requires `to_camel` on
`CAP_MEAS_INPUT` with delimiters `{'_'}`, the default caps-delimiters and
both flags initially false to return `CapMeasInput`; the code returns
`capMeasInput`, because `last_delim` starts out false and the very first
character is therefore lower-cased. -/
theorem to_camel_cap_meas_input :
    to_camel DEF_DELIM DEF_CAPS_DELIM "CAP_MEAS_INPUT" = "capMeasInput" ∧
    to_camel DEF_DELIM DEF_CAPS_DELIM "CAP_MEAS_INPUT" ≠ "CapMeasInput" :=
  ⟨by decide, by decide⟩

/-- Claim C2 (amended): the rename pass keeps the blank-line sentinels
`read_conv_file` yields.  On a table without blank lines every entry's
literal replacement is applied exactly once, in list order, to the full
text (the in-order fold `applyReplaceDropped`); a blank line in the table
makes the replacement loop raise (unpacking the empty tuple fails), so
such a table is not processed without error. -/
theorem rename_table_blank_sentinels (lines : List String) (text : String) :
    (ConvLine.blank ∉ read_conv_file lines →
      applyReplace (read_conv_file lines) text =
        .ok (applyReplaceDropped (read_conv_file lines) text)) ∧
    (ConvLine.blank ∈ read_conv_file lines →
      applyReplace (read_conv_file lines) text = .error .unpack) :=
  ⟨applyReplace_of_no_blank _ _, applyReplace_of_blank _ _⟩

/-- Claim C2, witness: on the one-line table `OLD NEW` the loop succeeds
and rewrites `OLD` to `NEW`; adding a blank line makes it raise. -/
theorem rename_table_blank_sentinels_w :
    applyReplace (read_conv_file ["OLD NEW"]) "OLD" =
      .ok (applyReplaceDropped (read_conv_file ["OLD NEW"]) "OLD") ∧
    applyReplace (read_conv_file ["OLD NEW", ""]) "OLD" = .error .unpack :=
  ⟨(rename_table_blank_sentinels ["OLD NEW"] "OLD").1 (by decide),
   (rename_table_blank_sentinels ["OLD NEW", ""] "OLD").2 (by decide)⟩

/-- Claim C2, counterexample: a table whose lines are `OLD NEW` and a
blank line makes the code's replacement loop raise, while the
spec-described pass (sentinels dropped) would have produced `NEW`. -/
theorem rename_table_blank_sentinels_cex :
    applyReplace (read_conv_file ["OLD NEW", ""]) "OLD" = .error .unpack ∧
    applyReplaceDropped (read_conv_file ["OLD NEW", ""]) "OLD" = "NEW" :=
  ⟨by decide, by decide⟩

/-- Claim C3 (amended): a diff invocation that merely exits nonzero is
advisory — the batch completes, every candidate file is processed, and
each changed file is only reported; but a missing diff executable raises
an uncaught `OSError`, which aborts the batch at that file. -/
theorem diff_failure_behavior (tbl : List ConvLine) (ren_fn : String)
    (codes : String → Int) (files : List (String × String))
    (hnb : ConvLine.blank ∉ tbl) :
    renameBatch tbl ren_fn true (fun f => .ran (codes f)) files =
      .ok (files.map fun ft =>
        (ft.1, ft.2,
          if ft.1 = ren_fn then .skipped
          else if applyReplaceDropped tbl ft.2 ≠ ft.2 then
            .wouldChange (applyReplaceDropped tbl ft.2) (codes ft.1)
          else .unchanged)) := by
  induction files with
  | nil => rfl
  | cons ft rest ih =>
    obtain ⟨fn, text⟩ := ft
    show (match processFile tbl ren_fn true (.ran (codes fn)) fn text with
      | Except.error e => Except.error e
      | Except.ok o =>
        match renameBatch tbl ren_fn true (fun f => .ran (codes f)) rest with
        | Except.error e => Except.error e
        | Except.ok l => Except.ok ((fn, text, o) :: l)) = _
    rw [processFile_ran tbl ren_fn true (codes fn) fn text hnb, ih]
    simp

/-- Claim C3, witness: with a table rewriting `a` to `b` and a diff
program that exits 2 on every file, a dry run over three files — two
changed, one untouched — completes and reports both changed files. -/
theorem diff_failure_behavior_w :
    renameBatch [ConvLine.entry "a" "b"] "T" true (fun _ => .ran 2)
        [("f1", "a"), ("f2", "a"), ("f3", "zzz")] =
      .ok [("f1", "a", .wouldChange "b" 2), ("f2", "a", .wouldChange "b" 2),
           ("f3", "zzz", .unchanged)] := by
  have h := diff_failure_behavior [ConvLine.entry "a" "b"] "T" (fun _ => 2)
    [("f1", "a"), ("f2", "a"), ("f3", "zzz")] (by decide)
  exact h

/-- Claim C3, counterexample: in dry-run mode with the diff executable
missing, the batch over two changed files aborts with the uncaught
error instead of continuing to the second file. -/
theorem diff_failure_behavior_cex :
    renameBatch [ConvLine.entry "a" "b"] "T" true (fun _ => .missing)
        [("f1", "a"), ("f2", "a")] = .error .execMissing := by decide

/-- Claim C4 (amended): when the root path does not exist or is not a
directory, `os.walk` (with its default error handling) yields nothing,
so `find_files` silently produces the empty sequence of paths rather
than failing with an I/O error. -/
theorem find_files_missing_root_silent (ign : List String)
    (m : String → String → Bool) (exts : List String) :
    (find_files ign m none exts none).2 = [] := rfl

/-- Claim C4, counterexample: on a missing root (no `.gitignore`, no
walkable directory) `find_files` returns the untouched default ignore
list and an empty file list — no error of any kind. -/
theorem find_files_missing_root_silent_cex :
    find_files DEFAULT_IGNORE (fun _ _ => false) none DEFAULT_EXT none =
      (DEFAULT_IGNORE, []) := by decide

/-- Claim C5 (amended): the replacement pass is idempotent on its own
output for tables in which no entry's `from` string occurs as a substring
of the first pass's output.  (The claim's original side condition — no
entry's `to` containing a strictly later entry's `from` — is not enough;
see the counterexample.) -/
theorem replacement_pass_idempotent (tbl : List (String × String)) (text T : String)
    (_hpass : applyReplace (tbl.map fun p => ConvLine.entry p.1 p.2) text = .ok T)
    (hocc : ∀ p ∈ tbl, containsSub p.1.data T.data = false) :
    applyReplace (tbl.map fun p => ConvLine.entry p.1 p.2) T = .ok T :=
  applyReplace_entries_id tbl T hocc

/-- Claim C5, witness: the table `[("a", "b")]` takes `a` to `b` on the
first pass and leaves `b` unchanged on the second. -/
theorem replacement_pass_idempotent_w :
    applyReplace ([("a", "b")].map fun p => ConvLine.entry p.1 p.2) "b" =
      .ok "b" :=
  replacement_pass_idempotent [("a", "b")] "a" "b" (by decide) (by decide)

/-- Claim C5, counterexample: the single-entry table `[("a", "aa")]`
satisfies the claim's side condition vacuously (there is no later entry),
yet the pass applied to its own output `aa` yields `aaaa`, not `aa`. -/
theorem replacement_pass_idempotent_cex :
    laterFromNotInTo [("a", "aa")] ∧
    applyReplace ([("a", "aa")].map fun p => ConvLine.entry p.1 p.2) "a" =
      .ok "aa" ∧
    applyReplace ([("a", "aa")].map fun p => ConvLine.entry p.1 p.2) "aa" ≠
      .ok "aa" :=
  ⟨by decide, by decide, by decide⟩

/-- Claim C6: the spec requires `to_camel` on `VAL_$(MACRO:C)` to return
`Val$(MACRO:C)`.  The macro span `$(MACRO:C)` is indeed passed through
unchanged, but the code returns `val$(MACRO:C)`: the initial character
is lower-cased for the same reason as in C1. -/
theorem to_camel_macro_preserved :
    to_camel DEF_DELIM DEF_CAPS_DELIM "VAL_$(MACRO:C)" = "val$(MACRO:C)" ∧
    to_camel DEF_DELIM DEF_CAPS_DELIM "VAL_$(MACRO:C)" ≠ "Val$(MACRO:C)" :=
  ⟨by decide, by decide⟩

/-- Claim C7: on a directory tree none of whose file paths is matched by
any compiled ignore pattern, `find_files` yields every regular file
exactly once, and the `extensions` parameter performs no filtering at
all — the yielded sequence is identical for any two extension lists. -/
theorem find_files_yields_all (ign : List String) (m : String → String → Bool)
    (g : Option (List String)) (exts exts2 : List String) (w : WalkOut)
    (hm : ∀ pat ∈ (find_files ign m g exts (some w)).1, ∀ f ∈ allFiles w,
      m pat f = false)
    (hnd : (allFiles w).Nodup) :
    (find_files ign m g exts (some w)).2 = allFiles w ∧
    (∀ f ∈ allFiles w, ((find_files ign m g exts (some w)).2).count f = 1) ∧
    find_files ign m g exts (some w) = find_files ign m g exts2 (some w) := by
  have he : (find_files ign m g exts (some w)).2 = allFiles w := by
    unfold find_files
    refine walk_filter_all _ m w ?_
    intro f hf
    rw [List.any_eq_false]
    intro pat hpat
    simp only [Bool.not_eq_true]
    exact hm pat hpat f hf
  refine ⟨he, ?_, rfl⟩
  intro f hf
  rw [he]
  exact List.count_eq_one_of_mem hnd hf

/-- Claim C7, witness: a two-directory walk with three files of three
different extensions, no matching pattern — all three are yielded, each
once, and the result does not depend on the extension list. -/
theorem find_files_yields_all_w :
    (find_files DEFAULT_IGNORE (fun _ _ => false) none DEFAULT_EXT
        (some [(".", ["a.db", "b.txt"]), ("./sub", ["c.xyz"])])).2 =
      ["./a.db", "./b.txt", "./sub/c.xyz"] ∧
    ((find_files DEFAULT_IGNORE (fun _ _ => false) none DEFAULT_EXT
        (some [(".", ["a.db", "b.txt"]), ("./sub", ["c.xyz"])])).2).count
      "./b.txt" = 1 ∧
    find_files DEFAULT_IGNORE (fun _ _ => false) none DEFAULT_EXT
        (some [(".", ["a.db", "b.txt"]), ("./sub", ["c.xyz"])]) =
      find_files DEFAULT_IGNORE (fun _ _ => false) none []
        (some [(".", ["a.db", "b.txt"]), ("./sub", ["c.xyz"])]) := by
  have h := find_files_yields_all DEFAULT_IGNORE (fun _ _ => false) none
    DEFAULT_EXT [] [(".", ["a.db", "b.txt"]), ("./sub", ["c.xyz"])]
    (by decide) (by decide)
  have e : allFiles [(".", ["a.db", "b.txt"]), ("./sub", ["c.xyz"])] =
      ["./a.db", "./b.txt", "./sub/c.xyz"] := by decide
  refine ⟨?_, ?_, h.2.2⟩
  · rw [h.1, e]
  · exact h.2.1 "./b.txt" (by rw [e]; decide)

/-- Claim C8: for a candidate file other than the table file, on a
blank-free table and with the diff program present: if the substituted
text differs, a dry run reports the would-be change, writes nothing, and
leaves the disk contents identical, while commit mode writes the
substituted text in place; if the substitution changes nothing, the file
is never written and produces no output in either mode. -/
theorem rename_frame_effect (tbl : List ConvLine) (ren_fn fn text : String)
    (c : Int) (hfn : fn ≠ ren_fn) (hnb : ConvLine.blank ∉ tbl) :
    (applyReplaceDropped tbl text ≠ text →
      processFile tbl ren_fn true (.ran c) fn text =
        .ok (.wouldChange (applyReplaceDropped tbl text) c) ∧
      processFile tbl ren_fn false (.ran c) fn text =
        .ok (.written (applyReplaceDropped tbl text)) ∧
      diskAfter text (.wouldChange (applyReplaceDropped tbl text) c) = text ∧
      didReport (.wouldChange (applyReplaceDropped tbl text) c) = true ∧
      didWrite (.wouldChange (applyReplaceDropped tbl text) c) = false ∧
      diskAfter text (.written (applyReplaceDropped tbl text)) =
        applyReplaceDropped tbl text) ∧
    (applyReplaceDropped tbl text = text →
      ∀ dryrun dres, processFile tbl ren_fn dryrun dres fn text = .ok .unchanged ∧
        didWrite FileOutcome.unchanged = false ∧
        didReport FileOutcome.unchanged = false ∧
        diskAfter text FileOutcome.unchanged = text) := by
  constructor
  · intro hch
    have h1 := processFile_ran tbl ren_fn true c fn text hnb
    have h2 := processFile_ran tbl ren_fn false c fn text hnb
    rw [if_neg hfn, if_pos hch] at h1 h2
    exact ⟨h1, h2, rfl, rfl, rfl, rfl⟩
  · intro hsame dryrun dres
    refine ⟨?_, rfl, rfl, rfl⟩
    unfold processFile
    rw [applyReplace_of_no_blank tbl text hnb, hsame]
    simp [hfn]

/-- Claim C8, witness: with the table rewriting `a` to `b`, the file `f`
containing `a` is reported but untouched in a dry run and overwritten
with `b` in commit mode, while a file containing `zzz` is untouched and
silent in both modes. -/
theorem rename_frame_effect_w :
    processFile [ConvLine.entry "a" "b"] "T" true (.ran 0) "f" "a" =
      .ok (.wouldChange "b" 0) ∧
    processFile [ConvLine.entry "a" "b"] "T" false (.ran 0) "f" "a" =
      .ok (.written "b") ∧
    processFile [ConvLine.entry "a" "b"] "T" true (.ran 0) "f" "zzz" =
      .ok .unchanged ∧
    processFile [ConvLine.entry "a" "b"] "T" false (.ran 0) "f" "zzz" =
      .ok .unchanged := by
  have e : applyReplaceDropped [ConvLine.entry "a" "b"] "a" = "b" := by decide
  have h1 := (rename_frame_effect [ConvLine.entry "a" "b"] "T" "f" "a" 0
    (by decide) (by decide)).1 (by rw [e]; decide)
  rw [e] at h1
  have h2 := (rename_frame_effect [ConvLine.entry "a" "b"] "T" "f" "zzz" 0
    (by decide) (by decide)).2 (by decide)
  exact ⟨h1.1, h1.2.1, (h2 true (.ran 0)).1, (h2 false (.ran 0)).1⟩

/-- Claim C9: `to_caps` fails deterministically with the not-implemented
error on every input; it never returns an output string. -/
theorem to_caps_not_impl (s : String) :
    to_caps s = Except.error ConvErr.notImplemented := rfl

/-- Claim C10: when a `.gitignore` exists under the root, `find_files`
extends the (mutable) default `ignore_paths` list object in place with
the loaded patterns, so the list the first call leaves behind is the
default set followed by the `.gitignore` patterns, and a second call
falling back to the default argument starts from an ignore set that
still contains every pattern of the previous call's `.gitignore`. -/
theorem find_files_defaults_accumulate (lines : List String)
    (m m2 : String → String → Bool) (exts exts2 : List String)
    (w w2 : Option WalkOut) (p : String) (hp : p ∈ load_ignore_file lines) :
    (find_files DEFAULT_IGNORE m (some lines) exts w).1 =
      DEFAULT_IGNORE ++ load_ignore_file lines ∧
    p ∈ (find_files (find_files DEFAULT_IGNORE m (some lines) exts w).1
          m2 none exts2 w2).1 := by
  refine ⟨rfl, ?_⟩
  show p ∈ DEFAULT_IGNORE ++ load_ignore_file lines
  exact List.mem_append_right _ hp

/-- Claim C10, witness: a `.gitignore` holding the single line `build/*`
compiles to the pattern `build/.*$`; after one call the default list is
the five built-in patterns plus it, and a second default-argument call
still carries it. -/
theorem find_files_defaults_accumulate_w :
    (find_files DEFAULT_IGNORE (fun _ _ => false) (some ["build/*"])
        DEFAULT_EXT none).1 = DEFAULT_IGNORE ++ ["build/.*$"] ∧
    "build/.*$" ∈ (find_files (find_files DEFAULT_IGNORE (fun _ _ => false)
        (some ["build/*"]) DEFAULT_EXT none).1 (fun _ _ => false) none []
        none).1 := by
  have h := find_files_defaults_accumulate ["build/*"] (fun _ _ => false)
    (fun _ _ => false) DEFAULT_EXT [] none none "build/.*$" (by decide)
  have e : load_ignore_file ["build/*"] = ["build/.*$"] := by decide
  exact ⟨by rw [h.1, e], h.2⟩

end PVRename
